import Mathlib

/-!
# PVRouter-3-phase: verification of the surplus-diversion core

Shallow embedding of the Python analysis/simulation scripts of the
PVRouter-3-phase repository that implement the specified core:

* `battery_system_simulation.py` / `cloud_event_analysis.py` — single-relay
  controllers compared with an import-threshold (post-storage) turn-off
  condition and a surplus-referenced (negative import threshold) one;
* `multi_relay_analysis.py` — the two-relay priority arbitration with
  dwell-time (minimum ON/OFF) constraints;
* `ema_effectiveness_analysis_extended.py` / `tema_comparison.py` — the
  integer triple-EMA ("multi-alpha TEMA") cascaded smoothing filter and its
  shift helper `round_up_to_power_of_2`.

Python's `>>` on `int` is an arithmetic right shift, i.e. floor division by a
power of two; on `Int` in Lean, `/` is Euclidean division, which agrees with
floor division whenever the divisor is positive, so `x / 2 ^ s` models `x >> s`
for `s ≥ 0`.  A negative shift count raises `ValueError` in Python; this is
modelled with `Option` (`none` = error).  `int(math.log2 v)` equals
`Nat.log2 v` (the floor base-2 logarithm) for every `v ≥ 1` in the range these
scripts can exercise (double-precision `log2` is exact enough below `2 ^ 49`).
-/

/-! ## Single-relay battery simulations (`battery_system_simulation.py`)

`simulate_with_import_threshold` (also `simulate_import_threshold` in
`cloud_event_analysis.py`, identical code): the relay turns ON on sufficient
surplus, and tries to turn OFF when the meter-side grid power — after an
infinite battery has compensated every deficit — shows an import beyond
`threshold`.  `simulate_with_negative_import_threshold`: the turn-off
condition reads the pre-battery surplus after the relay instead.

The Python loops thread `current_state` through the samples and record the
state after each iteration; the embedding threads it as an argument.  Call
sites use `relay_power = 1000` with `threshold = 0` resp.
`import_threshold = -50`. -/

def simulate_with_import_threshold (relay_power threshold : Int) :
    Bool → List Int → List Bool
  | _, [] => []
  | current_state, nb :: rest =>
    -- Turn ON when sufficient surplus
    let cur := if !current_state && decide (nb > relay_power) then true else current_state
    -- Power after relay consumption
    let surplus_after_relay := nb - (if cur then relay_power else 0)
    -- Battery compensates for any deficit (infinite capacity assumption)
    let battery_output := max 0 (-surplus_after_relay)
    -- Grid power: what the meter sees after battery compensation
    let grid_power := surplus_after_relay + battery_output
    -- Try to turn OFF when importing more than threshold
    let cur2 := if cur && decide (grid_power < -threshold) then false else cur
    cur2 :: simulate_with_import_threshold relay_power threshold cur2 rest

def simulate_with_negative_import_threshold (relay_power import_threshold : Int) :
    Bool → List Int → List Bool
  | _, [] => []
  | current_state, nb :: rest =>
    -- Turn ON when sufficient surplus
    let cur := if !current_state && decide (nb > relay_power) then true else current_state
    -- Surplus after relay consumption
    let surplus_after_relay := nb - (if cur then relay_power else 0)
    -- Turn OFF when surplus drops below threshold (import_threshold is negative)
    let cur2 := if cur && decide (surplus_after_relay < |import_threshold|) then false else cur
    cur2 :: simulate_with_negative_import_threshold relay_power import_threshold cur2 rest

/-- Holds (as `true`) iff the recorded state sequence ever goes from ON at one
tick to OFF at the next, i.e. the relay transitions ON → OFF somewhere. -/
def hasOnOffTransition : List Bool → Bool
  | a :: b :: rest => (a && !b) || hasOnOffTransition (b :: rest)
  | _ => false

/-! ## Two-relay priority arbitration (`multi_relay_analysis.py`,
`simulate_multi_relay_progressive`)

Relay configurations are the two dicts of the `relays` list: heat pump
(priority 1) and pool pump (priority 2).  Per tick `i`, the loop over relays
computes for relay `j` the load of the other relays from their states at the
*previous* tick (`relay_states[k][i-1]`, or `0` when `i = 0`), then applies the
turn-on / turn-off logic with the dwell-time guards. -/

structure RelayCfg where
  power : Int
  threshold : Int
  min_on_time : Int
  min_off_time : Int

def heatPump : RelayCfg := ⟨2500, -100, 20, 20⟩

def poolPump : RelayCfg := ⟨1000, -50, 0, 0⟩

/-- Body of the `for j, relay in enumerate(relays)` loop for one relay:
given `was_on`, `time_since_change` and `surplus_for_this_relay`, return the
new state and whether a transition happened (the branch where
`last_state_change[j] = i` is assigned). -/
def relayDecide (relay : RelayCfg) (was_on : Bool) (time_since_change : Int)
    (surplus_for_this_relay : Int) : Bool × Bool :=
  -- Turn ON logic: enough surplus for this relay + safety margin
  let turn_on_threshold := relay.power + |relay.threshold|
  let can_turn_on := !was_on && decide (surplus_for_this_relay > turn_on_threshold)
                      && decide (time_since_change ≥ relay.min_off_time)
  -- Turn OFF logic: surplus after this relay drops below threshold
  let surplus_after_this_relay := surplus_for_this_relay - relay.power
  let can_turn_off := was_on && decide (surplus_after_this_relay < |relay.threshold|)
                      && decide (time_since_change ≥ relay.min_on_time)
  if can_turn_on then (true, true)
  else if can_turn_off then (false, true)
  else (was_on, false)

/-- Per-relay simulation state: previous-tick states `relay_states[j][i-1]`
and `last_state_change[j]` (initialised to `-999`). -/
structure MRState where
  s0 : Bool
  s1 : Bool
  lc0 : Int
  lc1 : Int

def mrInit : MRState := ⟨false, false, -999, -999⟩

/-- One tick `i` of `simulate_multi_relay_progressive`: each relay's
`surplus_for_this_relay` subtracts the other relay's power if that relay was
ON at tick `i - 1` (`if i > 0` guard: zero at the first tick). -/
def mrStep (i : Nat) (st : MRState) (nb : Int) : MRState :=
  let other0 : Int := if decide (0 < i) && st.s1 then poolPump.power else 0
  let d0 := relayDecide heatPump st.s0 ((i : Int) - st.lc0) (nb - other0)
  let other1 : Int := if decide (0 < i) && st.s0 then heatPump.power else 0
  let d1 := relayDecide poolPump st.s1 ((i : Int) - st.lc1) (nb - other1)
  ⟨d0.1, d1.1, if d0.2 then (i : Int) else st.lc0, if d1.2 then (i : Int) else st.lc1⟩

def mrAux (i : Nat) (st : MRState) : List Int → List (Bool × Bool)
  | [] => []
  | nb :: rest =>
    let st' := mrStep i st nb
    (st'.s0, st'.s1) :: mrAux (i + 1) st' rest

/-- Top-level `simulate_multi_relay_progressive`: the per-tick `relay_states`
of both relays, heat pump first. -/
def simulate_multi_relay_progressive (net : List Int) : List (Bool × Bool) :=
  mrAux 0 mrInit net

/-- Final state of the arbitration run after consuming `net`, starting at
tick `i` in state `st` (used to state dwell-time persistence). -/
def mrRun (i : Nat) (st : MRState) : List Int → MRState
  | [] => st
  | nb :: rest => mrRun (i + 1) (mrStep i st nb) rest

/-- Modelled from the claim's words (for comparison with the code): a tick in
which the lower-priority relay's surplus already reflects the decision made
for the higher-priority relay earlier in the same pass, rather than its
previous-tick state. -/
def mrStepSameTick (i : Nat) (st : MRState) (nb : Int) : MRState :=
  let other0 : Int := if decide (0 < i) && st.s1 then poolPump.power else 0
  let d0 := relayDecide heatPump st.s0 ((i : Int) - st.lc0) (nb - other0)
  let other1 : Int := if d0.1 then heatPump.power else 0
  let d1 := relayDecide poolPump st.s1 ((i : Int) - st.lc1) (nb - other1)
  ⟨d0.1, d1.1, if d0.2 then (i : Int) else st.lc0, if d1.2 then (i : Int) else st.lc1⟩

def mrAuxSameTick (i : Nat) (st : MRState) : List Int → List (Bool × Bool)
  | [] => []
  | nb :: rest =>
    let st' := mrStepSameTick i st nb
    (st'.s0, st'.s1) :: mrAuxSameTick (i + 1) st' rest

def simulate_multi_relay_sametick (net : List Int) : List (Bool × Bool) :=
  mrAuxSameTick 0 mrInit net

/-- History-indexed presentation of the arbitration run from tick `i` and
state `st` over the remaining samples `net`: the state committed after tick
`i + k`, each tick's surplus referring (through `mrStep`) to the other load's
state at the previous index. -/
def mrHist (i : Nat) (st : MRState) (net : List Int) : Nat → MRState
  | 0 => mrStep i st (net.getD 0 0)
  | k + 1 => mrHist (i + 1) (mrStep i st (net.getD 0 0)) net.tail k

/-- The run presented as the committed state history, index by index. -/
def simulate_multi_relay_prevtick (net : List Int) : List (Bool × Bool) :=
  (List.range net.length).map fun k =>
    ((mrHist 0 mrInit net k).s0, (mrHist 0 mrInit net k).s1)

/-- The declining-surplus ramp of the spec's two-load scenario: 4000 W down to
0 W in 50 W steps. -/
def rampNet : List Int := (List.range 81).map fun k => 4000 - 50 * (k : Int)

/-- Combined rated power of the relays recorded ON. -/
def onPower (p : Bool × Bool) : Int :=
  (if p.1 then heatPump.power else 0) + (if p.2 then poolPump.power else 0)

/-- Index (counted from the second element of the window) of the first
ON → OFF transition of a recorded state sequence, if any. -/
def firstOffTrans : List Bool → Option Nat
  | a :: b :: rest => if a && !b then some 1 else (firstOffTrans (b :: rest)).map (· + 1)
  | _ => none

/-! ## Load configuration validation

The spec (§3, §4.3, §7) requires a `LoadSpec` constructor that rejects an
inverted hysteresis gap at construction time.  No such constructor exists in
the Python sources: `multi_relay_analysis.py` builds the relay configurations
as plain dicts with no validation, so the constructor is modelled from the
spec. -/

inductive ConfigError where
  | invertedHysteresis
  | nonPositivePower
  | negativeDuration
  deriving DecidableEq

/-- Modelled from the spec: fail-fast `LoadSpec` construction.  The repository
code (the relay dicts of `simulate_multi_relay_progressive`) has no
construction-time validation; the spec mandates rejecting turn-on margin ≤
turn-off threshold, non-positive power and negative minimum durations before
any tick runs. -/
structure LoadSpec where
  power : Int
  turnOnMargin : Int
  turnOffThreshold : Int
  minOnTime : Int
  minOffTime : Int
  deriving DecidableEq

def LoadSpec.make (power turnOnMargin turnOffThreshold minOnTime minOffTime : Int) :
    Except ConfigError LoadSpec :=
  if turnOnMargin ≤ turnOffThreshold then .error .invertedHysteresis
  else if power ≤ 0 then .error .nonPositivePower
  else if minOnTime < 0 ∨ minOffTime < 0 then .error .negativeDuration
  else .ok ⟨power, turnOnMargin, turnOffThreshold, minOnTime, minOffTime⟩

/-! ## The cascaded smoothing filter
(`ema_effectiveness_analysis_extended.py`, class `MultiAlphaTEMA`; the same
code appears inline in `tema_comparison.py`) -/

/-- Shift helper (`round_up_to_power_of_2` in both filter scripts):
`int(math.log2(v)) - 1` when `v & (v - 1) == 0`, else `int(math.log2(v))`.
`int(math.log2 v)` is the floor base-2 logarithm, `Nat.log2`. -/
def round_up_to_power_of_2 (v : Nat) : Int :=
  if v &&& (v - 1) == 0 then (Nat.log2 v : Int) - 1 else (Nat.log2 v : Int)

/-- Accumulator/output registers of `MultiAlphaTEMA` (zeroed by `reset`). -/
@[ext] structure TemaState where
  ema_raw : Int
  ema : Int
  ema_ema_raw : Int
  ema_ema : Int
  ema_ema_ema_raw : Int
  ema_ema_ema : Int
  deriving DecidableEq

def temaReset : TemaState := ⟨0, 0, 0, 0, 0, 0⟩

/-- Python's `x >> s` on `int`: arithmetic shift, i.e. floor division by
`2 ^ s`; for a negative shift count Python raises `ValueError`, modelled as
`none`.  (`/` on `Int` is Euclidean division = floor division here since the
divisor is positive.) -/
def pyShiftR (x s : Int) : Option Int :=
  if s < 0 then none else some (x / (2 ^ s.toNat : Int))

/-- Method `add_value` of `MultiAlphaTEMA` with the shifts derived in
`__init__` (`shift_A`, `shift_A - 1`, `shift_A - 2`); returns the new
register state and the dict `{ema, dema, tema}` (`ema << 1` written as
`2 * ema`). -/
def add_value (shift_A : Int) (st : TemaState) (input_val : Int) :
    Option (TemaState × Int × Int × Int) := do
  -- EMA calculation (original smoothing period)
  let ema_raw := st.ema_raw - st.ema + input_val
  let ema ← pyShiftR ema_raw shift_A
  -- EMA of EMA calculation (half period - 2x faster)
  let ema_ema_raw := st.ema_ema_raw - st.ema_ema + ema
  let ema_ema ← pyShiftR ema_ema_raw (shift_A - 1)
  -- EMA of EMA of EMA calculation (quarter period - 4x faster)
  let ema_ema_ema_raw := st.ema_ema_ema_raw - st.ema_ema_ema + ema_ema
  let ema_ema_ema ← pyShiftR ema_ema_ema_raw (shift_A - 2)
  return (⟨ema_raw, ema, ema_ema_raw, ema_ema, ema_ema_ema_raw, ema_ema_ema⟩,
          ema, 2 * ema - ema_ema, 3 * (ema - ema_ema) + ema_ema_ema)

/-- Total form of `add_value` for a base shift `s ≥ 2` given as a natural
number (the case in which no Python shift error can occur); related to
`add_value` by `add_value_eq_t`. -/
def add_value_t (s : Nat) (st : TemaState) (input_val : Int) : TemaState :=
  let ema_raw := st.ema_raw - st.ema + input_val
  let ema := ema_raw / (2 ^ s : Int)
  let ema_ema_raw := st.ema_ema_raw - st.ema_ema + ema
  let ema_ema := ema_ema_raw / (2 ^ (s - 1) : Int)
  let ema_ema_ema_raw := st.ema_ema_ema_raw - st.ema_ema_ema + ema_ema
  let ema_ema_ema := ema_ema_ema_raw / (2 ^ (s - 2) : Int)
  ⟨ema_raw, ema, ema_ema_raw, ema_ema, ema_ema_ema_raw, ema_ema_ema⟩

/-- State after `n` updates with the constant input `c` from the zeroed
startup state. -/
def tema_run (s : Nat) (c : Int) : Nat → TemaState
  | 0 => temaReset
  | n + 1 => add_value_t s (tema_run s c n) c

lemma add_value_eq_t (s : Nat) (h : 2 ≤ s) (st : TemaState) (input_val : Int) :
    add_value (s : Int) st input_val =
      some (add_value_t s st input_val,
            (add_value_t s st input_val).ema,
            2 * (add_value_t s st input_val).ema - (add_value_t s st input_val).ema_ema,
            3 * ((add_value_t s st input_val).ema - (add_value_t s st input_val).ema_ema)
              + (add_value_t s st input_val).ema_ema_ema) := by
  have h0 : ¬ ((s : Int) < 0) := by omega
  have h1 : ¬ ((s : Int) - 1 < 0) := by omega
  have h2 : ¬ ((s : Int) - 2 < 0) := by omega
  have e0 : (s : Int).toNat = s := by omega
  have e1 : ((s : Int) - 1).toNat = s - 1 := by omega
  have e2 : ((s : Int) - 2).toNat = s - 2 := by omega
  simp [add_value, add_value_t, pyShiftR, h0, h1, h2, e0, e1, e2, Option.bind]

/-! ## Fixed-point analysis of one exponential-smoothing stage

Each stage of `add_value` updates its accumulator by
`raw' = raw - raw / b + c` where `b = 2 ^ shift` and `c` is the stage input;
`emaStep`/`emaIter`/`emaDist` capture this recurrence for an arbitrary
positive divisor `b`. -/

def emaStep (b c x : Int) : Int := x - x / b + c

def emaIter (b c : Int) : Nat → Int → Int
  | 0, x => x
  | n + 1, x => emaIter b c n (emaStep b c x)

lemma emaIter_succ' (b c : Int) (n : Nat) (x : Int) :
    emaIter b c (n + 1) x = emaStep b c (emaIter b c n x) := by
  induction n generalizing x with
  | zero => rfl
  | succ n ih => rw [emaIter, ih]; rfl

lemma emaIter_add (b c : Int) (m n : Nat) (x : Int) :
    emaIter b c (m + n) x = emaIter b c n (emaIter b c m x) := by
  induction m generalizing x with
  | zero => rw [Nat.zero_add]; rfl
  | succ m ih =>
    have h1 : m + 1 + n = (m + n) + 1 := by omega
    rw [h1]
    rw [show emaIter b c ((m + n) + 1) x = emaIter b c (m + n) (emaStep b c x) from rfl, ih]
    rfl

lemma ediv_eq_of_band {b c x : Int} (hb : 0 < b) (h1 : c * b ≤ x) (h2 : x < (c + 1) * b) :
    x / b = c := by
  have hle : c ≤ x / b := (Int.le_ediv_iff_mul_le hb).mpr h1
  have hlt : x / b < c + 1 := (Int.ediv_lt_iff_lt_mul hb).mpr h2
  omega

lemma emaStep_fixed {b c x : Int} (h : x / b = c) : emaStep b c x = x := by
  simp [emaStep, h]

lemma emaIter_fixed {b c x : Int} (h : x / b = c) (n : Nat) : emaIter b c n x = x := by
  induction n with
  | zero => rfl
  | succ n ih => rw [emaIter, emaStep_fixed h, ih]

lemma emaStep_below {b c x : Int} (hb : 0 < b) (h : x < c * b) :
    x < emaStep b c x ∧ emaStep b c x ≤ c * b := by
  have hq : x / b < c := (Int.ediv_lt_iff_lt_mul hb).mpr h
  have hd := Int.ediv_add_emod x b
  have hr0 : 0 ≤ x % b := Int.emod_nonneg x (by omega)
  have hrb : x % b < b := Int.emod_lt_of_pos x hb
  constructor
  · simp only [emaStep]; omega
  · simp only [emaStep]
    nlinarith [mul_le_mul_of_nonneg_left (show x / b + 1 ≤ c by omega)
      (show (0:Int) ≤ b - 1 by omega)]

lemma emaStep_above {b c x : Int} (hb : 0 < b) (h : (c + 1) * b ≤ x) :
    emaStep b c x < x ∧ c * b ≤ emaStep b c x := by
  have hq : c + 1 ≤ x / b := (Int.le_ediv_iff_mul_le hb).mpr h
  have hd := Int.ediv_add_emod x b
  have hr0 : 0 ≤ x % b := Int.emod_nonneg x (by omega)
  have hrb : x % b < b := Int.emod_lt_of_pos x hb
  constructor
  · simp only [emaStep]; omega
  · simp only [emaStep]
    nlinarith [mul_nonneg (show (0:Int) ≤ x / b - c by omega) (show (0:Int) ≤ b - 1 by omega)]

/-- Number of steps after which the stage accumulator is guaranteed to have
reached its fixed band `[c * b, (c + 1) * b)`. -/
def emaDist (b c x : Int) : Nat := (c * b - x).toNat + (x - (c + 1) * b + 1).toNat

lemma emaIter_conv (b c : Int) (hb : 0 < b) :
    ∀ (k : Nat) (x : Int), emaDist b c x ≤ k → emaIter b c k x / b = c := by
  intro k
  induction k with
  | zero =>
    intro x hx
    have hcb : (c + 1) * b = c * b + b := by ring
    unfold emaDist at hx
    rw [emaIter]
    exact ediv_eq_of_band hb (by omega) (by omega)
  | succ k ih =>
    intro x hx
    rcases lt_or_le x (c * b) with hlo | hge
    · obtain ⟨h1, h2⟩ := emaStep_below hb hlo
      rw [emaIter]
      apply ih
      have hcb : (c + 1) * b = c * b + b := by ring
      unfold emaDist at hx ⊢
      omega
    · rcases lt_or_le x ((c + 1) * b) with hband | hhi
      · have hfix : x / b = c := ediv_eq_of_band hb hge hband
        rw [emaIter, emaStep_fixed hfix]
        apply ih
        have hcb : (c + 1) * b = c * b + b := by ring
        unfold emaDist at hx ⊢
        omega
      · obtain ⟨h1, h2⟩ := emaStep_above hb hhi
        rw [emaIter]
        apply ih
        have hcb : (c + 1) * b = c * b + b := by ring
        unfold emaDist at hx ⊢
        omega

/-! ## Lemmas about the single-relay simulations -/

lemma sim_import_stays_on (p : Int) (net : List Int) :
    simulate_with_import_threshold p 0 true net = List.replicate net.length true := by
  induction net with
  | nil => rfl
  | cons nb rest ih =>
    have hg : ¬ (nb - p + 0 ⊔ (p - nb) < 0) := by
      rcases le_total 0 (nb - p) with h | h
      · rw [sup_eq_left.mpr (by omega)]; omega
      · rw [sup_eq_right.mpr (by omega)]; omega
    simp [simulate_with_import_threshold, hg, ih, List.replicate_succ]

lemma hasOnOff_replicate_true : ∀ n, hasOnOffTransition (List.replicate n true) = false
  | 0 => rfl
  | 1 => rfl
  | (n + 2) => by
    have h := hasOnOff_replicate_true (n + 1)
    simp only [List.replicate_succ, hasOnOffTransition] at h ⊢
    simpa using h

lemma hasOnOff_cons_false (l : List Bool) :
    hasOnOffTransition (false :: l) = hasOnOffTransition l := by
  cases l <;> simp [hasOnOffTransition]

lemma sim_import_no_off (p : Int) :
    ∀ (net : List Int) (cur : Bool),
      hasOnOffTransition (simulate_with_import_threshold p 0 cur net) = false := by
  intro net
  induction net with
  | nil => intro cur; rfl
  | cons nb rest ih =>
    intro cur
    have hg : ¬ (nb - p + 0 ⊔ (p - nb) < 0) := by
      rcases le_total 0 (nb - p) with h | h
      · rw [sup_eq_left.mpr (by omega)]; omega
      · rw [sup_eq_right.mpr (by omega)]; omega
    cases cur with
    | true =>
      rw [sim_import_stays_on]
      exact hasOnOff_replicate_true _
    | false =>
      by_cases h1 : nb > p
      · have : simulate_with_import_threshold p 0 false (nb :: rest) =
            true :: simulate_with_import_threshold p 0 true rest := by
          simp [simulate_with_import_threshold, h1, hg]
        rw [this, sim_import_stays_on, ← List.replicate_succ]
        exact hasOnOff_replicate_true _
      · have : simulate_with_import_threshold p 0 false (nb :: rest) =
            false :: simulate_with_import_threshold p 0 false rest := by
          simp [simulate_with_import_threshold, h1]
        rw [this, hasOnOff_cons_false]
        exact ih false

lemma sim_neg_length (p t : Int) :
    ∀ (net : List Int) (cur : Bool),
      (simulate_with_negative_import_threshold p t cur net).length = net.length := by
  intro net
  induction net with
  | nil => intro cur; rfl
  | cons nb rest ih =>
    intro cur
    rw [simulate_with_negative_import_threshold]
    simp only [List.length_cons, ih]

lemma sim_neg_off_at (p t : Int) :
    ∀ (net : List Int) (cur : Bool) (j : Nat), j < net.length →
      net.getD j 0 - p < |t| →
      (simulate_with_negative_import_threshold p t cur net).getD j false = false := by
  intro net
  induction net with
  | nil => intro cur j hj; simp at hj
  | cons nb rest ih =>
    intro cur j hj hoff
    rw [simulate_with_negative_import_threshold]
    cases j with
    | zero =>
      simp only [List.getD_cons_zero] at hoff ⊢
      by_cases hc : (if !cur && decide (nb > p) then true else cur) = true
      · simp only [hc]
        simp [hoff]
      · have hc' : (if !cur && decide (nb > p) then true else cur) = false := by
          cases hcc : (if !cur && decide (nb > p) then true else cur)
          · rfl
          · exact absurd hcc hc
        simp only [hc']
        simp
    | succ j' =>
      simp only [List.getD_cons_succ] at hoff ⊢
      exact ih _ j' (by simpa using hj) hoff

lemma hasOnOff_head_true :
    ∀ (l : List Bool) (k : Nat), k < l.length → l.getD k false = false →
      hasOnOffTransition (true :: l) = true := by
  intro l
  induction l with
  | nil => intro k hk; simp at hk
  | cons b l' ih =>
    intro k hk hfalse
    cases b with
    | false => simp [hasOnOffTransition]
    | true =>
      cases k with
      | zero => simp at hfalse
      | succ k' =>
        simp only [List.getD_cons_succ] at hfalse
        have h2 := ih k' (by simpa using hk) hfalse
        show ((true && !true) || hasOnOffTransition (true :: l')) = true
        simp [h2]

lemma hasOnOff_of_true_before_false :
    ∀ (l : List Bool) (i j : Nat), i < j → j < l.length →
      l.getD i false = true → l.getD j false = false →
      hasOnOffTransition l = true := by
  intro l
  induction l with
  | nil => intro i j hij hj; simp at hj
  | cons a l' ih =>
    intro i j hij hj hi hjf
    cases i with
    | zero =>
      simp only [List.getD_cons_zero] at hi
      subst hi
      obtain ⟨j', rfl⟩ : ∃ j', j = j' + 1 := ⟨j - 1, by omega⟩
      simp only [List.getD_cons_succ] at hjf
      exact hasOnOff_head_true l' j' (by simpa using hj) hjf
    | succ i' =>
      obtain ⟨j', rfl⟩ : ∃ j', j = j' + 1 := ⟨j - 1, by omega⟩
      simp only [List.getD_cons_succ] at hi hjf
      have hrec := ih i' j' (by omega) (by simpa using hj) hi hjf
      cases l' with
      | nil => exact Bool.noConfusion hrec
      | cons b l'' =>
        simp only [hasOnOffTransition] at hrec ⊢
        simp [hrec]

/-- C1: for every input sequence, the controller whose turn-off condition is
evaluated against the post-storage grid power (floored at zero by battery
compensation, threshold 0 as at the call site) never transitions ON → OFF;
and whenever the surplus-referenced controller (power 1000 W, import
threshold −50 W) is ON at some tick and a deficit of any magnitude (balance
below the relay power) occurs at a later tick, it does transition ON → OFF.
This is the claim amended by the requirement that the deficit occur after the
surplus-referenced relay has turned ON (`c1_counterexample` shows the claim
fails without it). -/
theorem c1_storage_masking :
    (∀ net : List Int,
        hasOnOffTransition (simulate_with_import_threshold 1000 0 false net) = false)
  ∧ (∀ (net : List Int) (i j : Nat), i < j → j < net.length →
        (simulate_with_negative_import_threshold 1000 (-50) false net).getD i false = true →
        net.getD j 0 - 1000 < 0 →
        hasOnOffTransition (simulate_with_negative_import_threshold 1000 (-50) false net)
          = true) := by
  constructor
  · intro net
    exact sim_import_no_off 1000 net false
  · intro net i j hij hj hi hdef
    refine hasOnOff_of_true_before_false _ i j hij ?_ hi ?_
    · rw [sim_neg_length]; exact hj
    · exact sim_neg_off_at 1000 (-50) net false j hj (by rw [show |(-50 : Int)| = 50 by rfl]; omega)

/-- Witness for C1 at the concrete input [2000, 0]: the import-referenced
relay latches ON, the surplus-referenced relay turns ON then OFF. -/
theorem c1_storage_masking_witness :
    hasOnOffTransition (simulate_with_import_threshold 1000 0 false [2000, 0]) = false
  ∧ hasOnOffTransition (simulate_with_negative_import_threshold 1000 (-50) false [2000, 0])
      = true :=
  ⟨c1_storage_masking.1 [2000, 0],
   c1_storage_masking.2 [2000, 0] 0 1 (by decide) (by decide) (by decide) (by decide)⟩

/-- Counterexample to C1 as stated: the input sequence [-100] contains a
deficit (of magnitude 100), yet the surplus-referenced controller never turns
ON and hence never transitions ON → OFF, contrary to the claim that it "does
transition ON to OFF" on every such sequence. -/
theorem c1_counterexample :
    ((-100 : Int) < 0)
  ∧ simulate_with_negative_import_threshold 1000 (-50) false [-100] = [false]
  ∧ hasOnOffTransition (simulate_with_negative_import_threshold 1000 (-50) false [-100])
      = false := by
  refine ⟨by decide, by decide, by decide⟩

/-! ## Lemmas about the two-relay arbitration -/

lemma tail_getD (net : List Int) (m : Nat) : net.tail.getD m 0 = net.getD (m + 1) 0 := by
  cases net <;> rfl

lemma mrHist_succ_step :
    ∀ (k i : Nat) (st : MRState) (net : List Int),
      mrHist i st net (k + 1) = mrStep (i + k + 1) (mrHist i st net k) (net.getD (k + 1) 0) := by
  intro k
  induction k with
  | zero =>
    intro i st net
    show mrStep (i + 1) (mrStep i st (net.getD 0 0)) (net.tail.getD 0 0) = _
    rw [tail_getD]
    rfl
  | succ k ih =>
    intro i st net
    show mrHist (i + 1) (mrStep i st (net.getD 0 0)) net.tail (k + 1) = _
    rw [ih (i + 1) (mrStep i st (net.getD 0 0)) net.tail, tail_getD]
    have harith : i + 1 + k + 1 = i + (k + 1) + 1 := by omega
    rw [harith]
    rfl

lemma mrAux_eq_hist :
    ∀ (net : List Int) (i : Nat) (st : MRState),
      mrAux i st net = (List.range net.length).map
        (fun k => ((mrHist i st net k).s0, (mrHist i st net k).s1)) := by
  intro net
  induction net with
  | nil => intro i st; rfl
  | cons nb rest ih =>
    intro i st
    rw [mrAux, List.length_cons, List.range_succ_eq_map, List.map_cons, List.map_map,
      ih (i + 1) (mrStep i st nb)]
    rfl

/-- C2, amended: the arbitration pass of `simulate_multi_relay_progressive`
is the tick-indexed iteration of `mrStep`, in which each load's surplus
subtracts the rated power of each other load that was ON in the state
committed at the previous tick index (zero on the first tick) — not the
decisions made earlier in the same tick's pass. -/
theorem c2_prev_tick_arbitration (net : List Int) :
    simulate_multi_relay_progressive net = simulate_multi_relay_prevtick net
  ∧ ∀ k : Nat, mrHist 0 mrInit net (k + 1)
      = mrStep (k + 1) (mrHist 0 mrInit net k) (net.getD (k + 1) 0) := by
  constructor
  · exact mrAux_eq_hist net 0 mrInit
  · intro k
    have h := mrHist_succ_step k 0 mrInit net
    simpa using h

/-- Counterexample to C2 as stated: on the input [3000] the code turns BOTH
relays ON in the first tick (each evaluated against the full 3000 W), while
the same-tick semantics the claim describes (lower-priority surplus reflecting
the higher-priority decision of the same pass) would leave the pool pump OFF. -/
theorem c2_counterexample :
    simulate_multi_relay_progressive [3000] = [(true, true)]
  ∧ simulate_multi_relay_sametick [3000] = [(true, false)] := by
  refine ⟨by decide, by decide⟩

/-- C3, amended to the two-load declining-ramp scenario (4000 W → 0 W in 50 W
steps): after every full arbitration pass the combined rated power of the
loads left ON does not exceed that tick's surplus; the rank-2 pool pump first
turns OFF at or before the rank-1 heat pump; and the two are never ON
simultaneously in a tick whose surplus is below their combined 3500 W.
(`c3_counterexample` shows the unrestricted budget invariant of the claim is
violated on other inputs.) -/
theorem c3_ramp_invariants :
    (((simulate_multi_relay_progressive rampNet).zip rampNet).all
        (fun p => decide (onPower p.1 ≤ p.2)) = true)
  ∧ ((match firstOffTrans ((simulate_multi_relay_progressive rampNet).map (·.2)),
            firstOffTrans ((simulate_multi_relay_progressive rampNet).map (·.1)) with
      | some t2, some t1 => decide (t2 ≤ t1)
      | _, _ => false) = true)
  ∧ (((simulate_multi_relay_progressive rampNet).zip rampNet).all
        (fun p => !(p.1.1 && p.1.2) || decide (3500 ≤ p.2)) = true) := by
  refine ⟨by decide, by decide, by decide⟩

/-- Counterexample to C3 as stated: on the single-tick input [3000] the full
arbitration pass leaves both relays ON, committing 3500 W against a 3000 W
surplus. -/
theorem c3_counterexample :
    simulate_multi_relay_progressive [3000] = [(true, true)]
  ∧ ¬ (onPower (true, true) ≤ 3000) := by
  refine ⟨by decide, by decide⟩

/-- C4: per load and tick, the controller turns OFF → ON iff the surplus
exceeds the rated power plus the absolute threshold (the turn-on margin) and
the time since the last transition reaches the minimum-off duration; it turns
ON → OFF iff the surplus minus the rated power is below the absolute
threshold and the time since the last transition reaches the minimum-on
duration; otherwise the state is unchanged.  Moreover (dwell-time
enforcement) the heat pump, ON with last transition at `lc0`, remains ON
through every tick earlier than `lc0 + 20`. -/
theorem c4_controller_transitions :
    (∀ (relay : RelayCfg) (was_on : Bool) (tsc s : Int),
      (was_on = false →
        ((relayDecide relay was_on tsc s).1 = true ↔
          relay.power + |relay.threshold| < s ∧ relay.min_off_time ≤ tsc))
    ∧ (was_on = true →
        ((relayDecide relay was_on tsc s).1 = false ↔
          s - relay.power < |relay.threshold| ∧ relay.min_on_time ≤ tsc)))
  ∧ (∀ (i : Nat) (st : MRState) (net : List Int), st.s0 = true →
      (i : Int) + net.length ≤ st.lc0 + 20 →
      (mrRun i st net).s0 = true) := by
  constructor
  · intro relay was_on tsc s
    constructor
    · rintro rfl
      by_cases hs : relay.power + |relay.threshold| < s <;>
        by_cases ht : relay.min_off_time ≤ tsc <;>
          simp [relayDecide, hs, ht]
    · rintro rfl
      by_cases hs : s - relay.power < |relay.threshold| <;>
        by_cases ht : relay.min_on_time ≤ tsc <;>
          simp [relayDecide, hs, ht]
  · intro i st net
    induction net generalizing i st with
    | nil => intro hs _; simpa [mrRun] using hs
    | cons nb rest ih =>
      intro hs hlen
      have hlock : (i : Int) - st.lc0 < 20 := by
        simp only [List.length_cons] at hlen
        push_cast at hlen
        omega
      have hstep : (mrStep i st nb).s0 = true ∧ (mrStep i st nb).lc0 = st.lc0 := by
        have hd : ¬ ((20 : Int) ≤ (i : Int) - st.lc0) := by omega
        constructor <;> simp [mrStep, relayDecide, hs, heatPump, hd]
      rw [mrRun]
      apply ih
      · exact hstep.1
      · rw [hstep.2]
        simp only [List.length_cons] at hlen
        push_cast at hlen ⊢
        omega

/-- Witness for C4: the heat pump OFF with ample surplus and expired dwell
turns ON; a heat pump that turned ON at tick 0 stays ON through 15 further
deficit ticks starting at tick 5 (i.e. until tick 20). -/
theorem c4_controller_transitions_witness :
    (relayDecide heatPump false 999 3000).1 = true
  ∧ (mrRun 5 ⟨true, false, 0, -999⟩ (List.replicate 15 0)).s0 = true :=
  ⟨((c4_controller_transitions.1 heatPump false 999 3000).1 rfl).mpr (by constructor <;> decide),
   c4_controller_transitions.2 5 ⟨true, false, 0, -999⟩ (List.replicate 15 0) rfl (by simp)⟩

/-- C7 (spec-modelled): constructing a `LoadSpec` whose turn-on margin is ≤
its turn-off threshold fails at construction; every accepted `LoadSpec` has
turn-on margin strictly greater than turn-off threshold. -/
theorem c7_loadspec_validation (power m t onT offT : Int) :
    (m ≤ t → LoadSpec.make power m t onT offT = .error .invertedHysteresis)
  ∧ (∀ spec, LoadSpec.make power m t onT offT = .ok spec →
      spec.turnOffThreshold < spec.turnOnMargin) := by
  constructor
  · intro h
    simp [LoadSpec.make, h]
  · intro spec hok
    by_cases h1 : m ≤ t
    · simp [LoadSpec.make, h1] at hok
    · by_cases h2 : power ≤ 0
      · simp [LoadSpec.make, h1, h2] at hok
      · by_cases h3 : onT < 0 ∨ offT < 0
        · simp [LoadSpec.make, h1, h2, h3] at hok
        · simp [LoadSpec.make, h1, h2, h3] at hok
          rw [← hok]
          simpa using h1

/-- Witness for C7: margin 50 ≤ threshold 100 is rejected; the accepted
configuration with margin 100 and threshold 50 satisfies the hysteresis
inequality. -/
theorem c7_loadspec_validation_witness :
    LoadSpec.make 1000 50 100 0 0 = .error .invertedHysteresis
  ∧ (⟨1000, 100, 50, 0, 0⟩ : LoadSpec).turnOffThreshold
      < (⟨1000, 100, 50, 0, 0⟩ : LoadSpec).turnOnMargin :=
  ⟨(c7_loadspec_validation 1000 50 100 0 0).1 (by decide),
   (c7_loadspec_validation 1000 100 50 0 0).2 ⟨1000, 100, 50, 0, 0⟩ rfl⟩

/-- C10: at tick index 0 each relay's surplus is the raw net balance (the
other load's committed draw is taken as zero), so the first-tick decisions
are exactly the threshold tests on the raw balance; consequently on the input
[3000] both relays turn ON in the same tick although their combined 3500 W of
rated power exceeds the 3000 W balance. -/
theorem c10_first_tick_overcommit :
    (∀ (nb : Int) (rest : List Int),
        (simulate_multi_relay_progressive (nb :: rest)).getD 0 (false, false) =
          (decide (2600 < nb), decide (1050 < nb)))
  ∧ (simulate_multi_relay_progressive [3000]).getD 0 (false, false) = (true, true)
  ∧ (3000 : Int) < 2500 + 1000 := by
  refine ⟨?_, by decide, by decide⟩
  intro nb rest
  show ((mrStep 0 mrInit nb).s0, (mrStep 0 mrInit nb).s1) = _
  by_cases h0 : (2600 : Int) < nb <;> by_cases h1 : (1050 : Int) < nb <;>
    simp [mrStep, mrInit, relayDecide, heatPump, poolPump, h0, h1]

/-! ## Lemmas about the shift helper -/

lemma testBit_of_bounds {n k : Nat} (h1 : 2 ^ k ≤ n) (h2 : n < 2 ^ (k + 1)) :
    n.testBit k = true := by
  rw [Nat.testBit_to_div_mod]
  have e : (1 + 1) * 2 ^ k = 2 ^ (k + 1) := by ring
  have hdiv : n / 2 ^ k = 1 := Nat.div_eq_of_lt_le (by omega) (by omega)
  simp [hdiv]

lemma and_pred_eq_zero_iff_pow2 {v : Nat} (hv : 1 ≤ v) :
    v &&& (v - 1) = 0 ↔ ∃ k, v = 2 ^ k := by
  constructor
  · intro h
    refine ⟨Nat.log2 v, ?_⟩
    by_contra hne
    have h1 : 2 ^ Nat.log2 v ≤ v := Nat.log2_self_le (by omega)
    have h2 : v < 2 ^ (Nat.log2 v + 1) := Nat.lt_log2_self
    have hgt : 2 ^ Nat.log2 v < v := lt_of_le_of_ne h1 (fun e => hne e.symm)
    have hb1 : v.testBit (Nat.log2 v) = true := testBit_of_bounds h1 h2
    have hb2 : (v - 1).testBit (Nat.log2 v) = true := testBit_of_bounds (by omega) (by omega)
    have hz := congrArg (fun x => x.testBit (Nat.log2 v)) h
    simp only [Nat.testBit_and, Nat.zero_testBit, hb1, hb2, Bool.and_self] at hz
    exact Bool.noConfusion hz
  · rintro ⟨k, rfl⟩
    apply Nat.eq_of_testBit_eq
    intro i
    rw [Nat.testBit_and, Nat.zero_testBit]
    rcases eq_or_ne i k with rfl | hik
    · have hlow : (2 ^ i - 1).testBit i = false := by
        apply Nat.testBit_lt_two_pow
        have : (0:Nat) < 2 ^ i := Nat.pos_pow_of_pos i (by decide)
        omega
      simp [hlow]
    · have hki : k ≠ i := fun e => hik e.symm
      simp [Nat.testBit_two_pow, hki]

lemma log2_two_pow (k : Nat) : Nat.log2 (2 ^ k) = k := by
  have hne : (2:Nat) ^ k ≠ 0 := (Nat.pos_pow_of_pos k (by decide)).ne'
  have h1 : k ≤ Nat.log2 (2 ^ k) := (Nat.le_log2 hne).mpr le_rfl
  have h2 : Nat.log2 (2 ^ k) < k + 1 :=
    (Nat.log2_lt hne).mpr (Nat.pow_lt_pow_right (by decide) (by omega))
  omega

/-- C5, amended: for τ ≥ 1 the shift equals `log2 τ − 1` when τ is exactly a
power of two and the FLOOR of `log2 τ` (not the ceiling) otherwise. -/
theorem c5_shift_rule (τ : Nat) (h : 1 ≤ τ) :
    ((∃ k, τ = 2 ^ k) → round_up_to_power_of_2 τ = (Nat.log2 τ : Int) - 1)
  ∧ ((¬ ∃ k, τ = 2 ^ k) → round_up_to_power_of_2 τ = (Nat.log2 τ : Int)) := by
  constructor
  · intro hp
    have hb : τ &&& (τ - 1) = 0 := (and_pred_eq_zero_iff_pow2 h).mpr hp
    simp [round_up_to_power_of_2, hb]
  · intro hp
    have hb : τ &&& (τ - 1) ≠ 0 := fun e => hp ((and_pred_eq_zero_iff_pow2 h).mp e)
    simp [round_up_to_power_of_2, hb]

/-- Witness for C5 at τ = 4 = 2²: the shift is log2(4) − 1 = 1. -/
theorem c5_shift_rule_witness :
    round_up_to_power_of_2 4 = (Nat.log2 4 : Int) - 1 :=
  (c5_shift_rule 4 (by decide)).1 ⟨2, by decide⟩

/-- Counterexample to C5 as stated: τ = 3 is not a power of two, the claim
prescribes ceil(log2 3) = 2 (`Nat.clog 2 3`), but the code returns
`int(log2 3)` = 1, the floor. -/
theorem c5_counterexample :
    (¬ ∃ k : Nat, (3 : Nat) = 2 ^ k)
  ∧ round_up_to_power_of_2 3 = 1
  ∧ (Nat.clog 2 3 : Int) = 2 := by
  refine ⟨?_, ?_, ?_⟩
  · rintro ⟨k, hk⟩
    match k, hk with
    | 0, hk => simp at hk
    | 1, hk => simp at hk
    | (k + 2), hk =>
      have h4 : (2 : Nat) ^ 2 ≤ 2 ^ (k + 2) := Nat.pow_le_pow_right (by decide) (by omega)
      have e : (2 : Nat) ^ 2 = 4 := by norm_num
      omega
  · simp [round_up_to_power_of_2, Nat.log2]
  · rw [show Nat.clog 2 3 = 2 from by simp [Nat.clog]]
    rfl

/-- C6: each filter update runs stage 1's exponential-smoothing recurrence at
shift s (accumulator += input − previous stage-1 output, output = accumulator
>> s), stage 2 the same recurrence on stage 1's output at shift s−1, stage 3
on stage 2's output at shift s−2, and the returned composite equals
3×(stage1 − stage2) + stage3. -/
theorem c6_cascaded_stages (shift_A : Int) (st : TemaState) (input_val : Int)
    (h : 2 ≤ shift_A) :
    ∃ st' ema dema tema,
      add_value shift_A st input_val = some (st', ema, dema, tema)
    ∧ st'.ema_raw = st.ema_raw + (input_val - st.ema)
    ∧ some st'.ema = pyShiftR st'.ema_raw shift_A
    ∧ st'.ema_ema_raw = st.ema_ema_raw + (st'.ema - st.ema_ema)
    ∧ some st'.ema_ema = pyShiftR st'.ema_ema_raw (shift_A - 1)
    ∧ st'.ema_ema_ema_raw = st.ema_ema_ema_raw + (st'.ema_ema - st.ema_ema_ema)
    ∧ some st'.ema_ema_ema = pyShiftR st'.ema_ema_ema_raw (shift_A - 2)
    ∧ ema = st'.ema
    ∧ tema = 3 * (st'.ema - st'.ema_ema) + st'.ema_ema_ema := by
  obtain ⟨s, rfl⟩ : ∃ s : Nat, shift_A = (s : Int) := ⟨shift_A.toNat, by omega⟩
  have hs : 2 ≤ s := by omega
  have h0 : ¬ ((s : Int) < 0) := by omega
  have h1 : ¬ ((s : Int) - 1 < 0) := by omega
  have h2 : ¬ ((s : Int) - 2 < 0) := by omega
  have e0 : (s : Int).toNat = s := by omega
  have e1 : ((s : Int) - 1).toNat = s - 1 := by omega
  have e2 : ((s : Int) - 2).toNat = s - 2 := by omega
  rw [add_value_eq_t s hs]
  refine ⟨add_value_t s st input_val, _, _, _, rfl, ?_, ?_, ?_, ?_, ?_, ?_, rfl, rfl⟩
  · show (add_value_t s st input_val).ema_raw = _
    simp only [add_value_t]
    ring
  · show some (add_value_t s st input_val).ema = _
    simp [add_value_t, pyShiftR, h0, e0]
  · show (add_value_t s st input_val).ema_ema_raw = _
    simp only [add_value_t]
    ring
  · show some (add_value_t s st input_val).ema_ema = _
    simp [add_value_t, pyShiftR, h1, e1]
  · show (add_value_t s st input_val).ema_ema_ema_raw = _
    simp only [add_value_t]
    ring
  · show some (add_value_t s st input_val).ema_ema_ema = _
    simp [add_value_t, pyShiftR, h2, e2]

/-- Witness for C6 at shift 2, the zeroed state and input 1000. -/
theorem c6_cascaded_stages_witness :
    (2 : Int) ≤ 2
  ∧ ∃ st' ema dema tema,
      add_value 2 temaReset 1000 = some (st', ema, dema, tema)
    ∧ st'.ema_raw = temaReset.ema_raw + (1000 - temaReset.ema)
    ∧ some st'.ema = pyShiftR st'.ema_raw 2
    ∧ st'.ema_ema_raw = temaReset.ema_ema_raw + (st'.ema - temaReset.ema_ema)
    ∧ some st'.ema_ema = pyShiftR st'.ema_ema_raw (2 - 1)
    ∧ st'.ema_ema_ema_raw = temaReset.ema_ema_ema_raw + (st'.ema_ema - temaReset.ema_ema_ema)
    ∧ some st'.ema_ema_ema = pyShiftR st'.ema_ema_ema_raw (2 - 2)
    ∧ ema = st'.ema
    ∧ tema = 3 * (st'.ema - st'.ema_ema) + st'.ema_ema_ema :=
  ⟨by decide, c6_cascaded_stages 2 temaReset 1000 (by decide)⟩

lemma round_up_ge_two {A : Nat} (h : 5 ≤ A) : 2 ≤ round_up_to_power_of_2 A := by
  unfold round_up_to_power_of_2
  by_cases hb : A &&& (A - 1) = 0
  · have hp : ∃ k, A = 2 ^ k := (and_pred_eq_zero_iff_pow2 (by omega)).mp hb
    obtain ⟨k, rfl⟩ := hp
    have hk : 3 ≤ k := by
      by_contra hlt
      push_neg at hlt
      have : (2:Nat) ^ k ≤ 4 :=
        le_trans (Nat.pow_le_pow_right (by decide) (by omega : k ≤ 2)) (by decide)
      omega
    rw [if_pos (by simpa using hb), log2_two_pow]
    omega
  · rw [if_neg (by simpa using hb)]
    have h2 : 2 ≤ Nat.log2 A := (Nat.le_log2 (by omega)).mpr (by omega)
    omega

/-- C8, amended: for every period τ ≥ 5 (for τ ≤ 4 the derived shifts go
negative and the Python update raises, see `c8_counterexample`), the update
operation returns a result with no error outcome on every state and integer
input, and it is deterministic: equal state and input give equal results. -/
theorem c8_update_total (A : Nat) (st : TemaState) (input_val : Int) (h : 5 ≤ A) :
    (∃ r, add_value (round_up_to_power_of_2 A) st input_val = some r)
  ∧ (∀ (st' : TemaState) (input' : Int), st' = st → input' = input_val →
      add_value (round_up_to_power_of_2 A) st' input' =
        add_value (round_up_to_power_of_2 A) st input_val) := by
  have h2 : 2 ≤ round_up_to_power_of_2 A := round_up_ge_two h
  obtain ⟨s, hs⟩ : ∃ s : Nat, round_up_to_power_of_2 A = (s : Int) :=
    ⟨(round_up_to_power_of_2 A).toNat, by omega⟩
  constructor
  · rw [hs]
    exact ⟨_, add_value_eq_t s (by omega) st input_val⟩
  · rintro st' input' rfl rfl
    rfl

/-- Witness for C8 at the script's period A = 24. -/
theorem c8_update_total_witness :
    (5 : Nat) ≤ 24
  ∧ ∃ r, add_value (round_up_to_power_of_2 24) temaReset 1000 = some r :=
  ⟨by decide, (c8_update_total 24 temaReset 1000 (by decide)).1⟩

/-- Counterexample to C8 as stated: for τ = 1 the derived shift is −1
(`log2 1 − 1`), so the very first stage raises (no smoothed estimate is
returned), contrary to "no error outcome" for every τ ≥ 1. -/
theorem c8_counterexample :
    round_up_to_power_of_2 1 = -1
  ∧ add_value (round_up_to_power_of_2 1) temaReset 0 = none := by
  have h : round_up_to_power_of_2 1 = -1 := by simp [round_up_to_power_of_2, Nat.log2]
  exact ⟨h, by rw [h]; decide⟩

/-! ## Convergence of the cascade on a constant input -/

lemma tema_run_inv (s : Nat) (c : Int) :
    ∀ n, (tema_run s c n).ema = (tema_run s c n).ema_raw / 2 ^ s
      ∧ (tema_run s c n).ema_ema = (tema_run s c n).ema_ema_raw / 2 ^ (s - 1)
      ∧ (tema_run s c n).ema_ema_ema = (tema_run s c n).ema_ema_ema_raw / 2 ^ (s - 2)
  | 0 => by
    refine ⟨?_, ?_, ?_⟩ <;> simp [tema_run, temaReset]
  | (n + 1) => ⟨rfl, rfl, rfl⟩

/-- Once the per-stage recurrence holds from tick `N` on, the accumulator
settles in finitely many steps on a fixed point whose output is exactly the
constant input `c`. -/
lemma tail_settles (u : Nat → Int) (b c : Int) (hb : 0 < b) (N : Nat)
    (h : ∀ n, N ≤ n → u (n + 1) = emaStep b c (u n)) :
    ∃ M, N ≤ M ∧ (∀ n, M ≤ n → u n = u M) ∧ u M / b = c := by
  have hiter : ∀ k, u (N + k) = emaIter b c k (u N) := by
    intro k
    induction k with
    | zero => rfl
    | succ k ih =>
      have e : N + (k + 1) = (N + k) + 1 := by omega
      rw [e, h (N + k) (by omega), ih, ← emaIter_succ']
  refine ⟨N + emaDist b c (u N), by omega, ?_, ?_⟩
  · intro n hn
    obtain ⟨j, rfl⟩ : ∃ j, n = (N + emaDist b c (u N)) + j :=
      ⟨n - (N + emaDist b c (u N)), by omega⟩
    have e1 : (N + emaDist b c (u N)) + j = N + (emaDist b c (u N) + j) := by omega
    rw [e1, hiter (emaDist b c (u N) + j), emaIter_add, ← hiter (emaDist b c (u N))]
    have hM : u (N + emaDist b c (u N)) / b = c := by
      rw [hiter]
      exact emaIter_conv b c hb _ _ le_rfl
    exact emaIter_fixed hM j
  · rw [hiter]
    exact emaIter_conv b c hb _ _ le_rfl

/-- C9: for every constant integer input `c` and base shift `s ≥ 2`
(nonnegative shifts at all three stages, matching the source), iterating the
update from the zeroed startup state reaches, after finitely many ticks, a
state that is a fixed point of further updates with input `c`, in which all
three stage outputs — and hence the composite TEMA output — equal `c`
exactly. -/
theorem c9_constant_input_fixed_point (s : Nat) (c : Int) (hs : 2 ≤ s) :
    ∃ N, (∀ n, N ≤ n → tema_run s c n = tema_run s c N)
      ∧ (tema_run s c N).ema = c
      ∧ (tema_run s c N).ema_ema = c
      ∧ (tema_run s c N).ema_ema_ema = c
      ∧ 3 * ((tema_run s c N).ema - (tema_run s c N).ema_ema)
          + (tema_run s c N).ema_ema_ema = c := by
  have hb1 : (0 : Int) < 2 ^ s := by positivity
  have hb2 : (0 : Int) < 2 ^ (s - 1) := by positivity
  have hb3 : (0 : Int) < 2 ^ (s - 2) := by positivity
  -- stage 1 follows the recurrence from the start
  have hstep1 : ∀ n, (0 : Nat) ≤ n →
      (tema_run s c (n + 1)).ema_raw = emaStep (2 ^ s) c ((tema_run s c n).ema_raw) := by
    intro n _
    have e : (tema_run s c (n + 1)).ema_raw
        = (tema_run s c n).ema_raw - (tema_run s c n).ema + c := rfl
    rw [e, (tema_run_inv s c n).1]
    simp [emaStep]
  obtain ⟨M1, _, hfix1, hdiv1⟩ :=
    tail_settles (fun n => (tema_run s c n).ema_raw) (2 ^ s) c hb1 0 hstep1
  have hema1 : ∀ n, M1 ≤ n → (tema_run s c n).ema = c := by
    intro n hn
    rw [(tema_run_inv s c n).1]
    rw [show (tema_run s c n).ema_raw = (tema_run s c M1).ema_raw from hfix1 n hn]
    exact hdiv1
  -- stage 2 follows the recurrence once stage 1 outputs c
  have hstep2 : ∀ n, M1 ≤ n →
      (tema_run s c (n + 1)).ema_ema_raw
        = emaStep (2 ^ (s - 1)) c ((tema_run s c n).ema_ema_raw) := by
    intro n hn
    have e : (tema_run s c (n + 1)).ema_ema_raw
        = (tema_run s c n).ema_ema_raw - (tema_run s c n).ema_ema
            + (tema_run s c (n + 1)).ema := rfl
    rw [e, hema1 (n + 1) (by omega), (tema_run_inv s c n).2.1]
    simp [emaStep]
  obtain ⟨M2, hM2ge, hfix2, hdiv2⟩ :=
    tail_settles (fun n => (tema_run s c n).ema_ema_raw) (2 ^ (s - 1)) c hb2 M1 hstep2
  have hema2 : ∀ n, M2 ≤ n → (tema_run s c n).ema_ema = c := by
    intro n hn
    rw [(tema_run_inv s c n).2.1]
    rw [show (tema_run s c n).ema_ema_raw = (tema_run s c M2).ema_ema_raw from hfix2 n hn]
    exact hdiv2
  -- stage 3 follows the recurrence once stage 2 outputs c
  have hstep3 : ∀ n, M2 ≤ n →
      (tema_run s c (n + 1)).ema_ema_ema_raw
        = emaStep (2 ^ (s - 2)) c ((tema_run s c n).ema_ema_ema_raw) := by
    intro n hn
    have e : (tema_run s c (n + 1)).ema_ema_ema_raw
        = (tema_run s c n).ema_ema_ema_raw - (tema_run s c n).ema_ema_ema
            + (tema_run s c (n + 1)).ema_ema := rfl
    rw [e, hema2 (n + 1) (by omega), (tema_run_inv s c n).2.2]
    simp [emaStep]
  obtain ⟨M3, hM3ge, hfix3, hdiv3⟩ :=
    tail_settles (fun n => (tema_run s c n).ema_ema_ema_raw) (2 ^ (s - 2)) c hb3 M2 hstep3
  have hema3 : ∀ n, M3 ≤ n → (tema_run s c n).ema_ema_ema = c := by
    intro n hn
    rw [(tema_run_inv s c n).2.2]
    rw [show (tema_run s c n).ema_ema_ema_raw = (tema_run s c M3).ema_ema_ema_raw
        from hfix3 n hn]
    exact hdiv3
  refine ⟨M3, ?_, hema1 M3 (by omega), hema2 M3 (by omega), hema3 M3 (by omega), ?_⟩
  · intro n hn
    have h1 : (tema_run s c n).ema_raw = (tema_run s c M3).ema_raw := by
      rw [hfix1 n (by omega), hfix1 M3 (by omega)]
    have h2 : (tema_run s c n).ema_ema_raw = (tema_run s c M3).ema_ema_raw := by
      rw [hfix2 n (by omega), hfix2 M3 (by omega)]
    have h3 : (tema_run s c n).ema_ema_ema_raw = (tema_run s c M3).ema_ema_ema_raw := by
      rw [hfix3 n (by omega), hfix3 M3 (by omega)]
    have h4 : (tema_run s c n).ema = (tema_run s c M3).ema := by
      rw [(tema_run_inv s c n).1, (tema_run_inv s c M3).1, h1]
    have h5 : (tema_run s c n).ema_ema = (tema_run s c M3).ema_ema := by
      rw [(tema_run_inv s c n).2.1, (tema_run_inv s c M3).2.1, h2]
    have h6 : (tema_run s c n).ema_ema_ema = (tema_run s c M3).ema_ema_ema := by
      rw [(tema_run_inv s c n).2.2, (tema_run_inv s c M3).2.2, h3]
    exact TemaState.ext h1 h4 h2 h5 h3 h6
  · rw [hema1 M3 (by omega), hema2 M3 (by omega), hema3 M3 (by omega)]
    ring

/-- Witness for C9 at the shift of period 24 (s = 4) and constant input
1000 W. -/
theorem c9_constant_input_fixed_point_witness :
    (2 : Nat) ≤ 4
  ∧ ∃ N, (∀ n, N ≤ n → tema_run 4 1000 n = tema_run 4 1000 N)
      ∧ (tema_run 4 1000 N).ema = 1000
      ∧ (tema_run 4 1000 N).ema_ema = 1000
      ∧ (tema_run 4 1000 N).ema_ema_ema = 1000
      ∧ 3 * ((tema_run 4 1000 N).ema - (tema_run 4 1000 N).ema_ema)
          + (tema_run 4 1000 N).ema_ema_ema = 1000 :=
  ⟨by decide, c9_constant_input_fixed_point 4 1000 (by decide)⟩
